import Mathlib

/-!
# Verification of the hyperliquid-go `utils` package

This file embeds the `utils` package of `cgaspart/hyperliquid-go` in Lean and
proves (or refutes) the claims of its specification.

Conventions of the embedding:

* Machine bytes are `Nat` values below 256; 64-bit lanes are `Nat` values
  below `2 ^ 64`, with masking written out where Go overflows.
* Fallible Go functions (value, error) return `Except GoErr _`.
* Go `float64` inputs of the numeric converter are modelled as exact
  rationals (`ℚ`); every concrete input appearing in a theorem below
  (`3/2`, `1`, `2`, `2^64`) is exactly representable in binary64 and every
  Go floating-point operation performed on it by the embedded code paths is
  exact, so the rational model and the binary64 code agree on these inputs.
* A Go `map[string]T` value is modelled as an association list of its
  entries.  Go fixes no iteration order for maps: the order of the list
  records one concrete iteration order of the same map, and theorems about
  order dependence quantify over (or exhibit) permutations of the entries.
* External library primitives (msgpack encoding, Keccak-256, hex codecs)
  are implemented from their wire-format definitions; elliptic-curve
  recovery is an abstract parameter, since none of the checked claims
  depends on its arithmetic.
-/

/-- The sentinel errors declared in `utils/types.go`, plus kinds for the
non-sentinel `fmt.Errorf` errors that the theorems below must tell apart:
`decode` for hex/signature decoding failures, `overflow` for the int64
range failure in `FloatToInt`, and `generic` for remaining message-only
errors. -/
inductive ErrKind where
  | precisionLoss
  | invalidAddress
  | invalidOrderType
  | invalidSignatureChain
  | decode
  | overflow
  | generic (msg : String)
deriving DecidableEq

/-- A Go error value: the underlying sentinel (or message-only) error
together with the stack of `fmt.Errorf("...: %w", err)` wrapping contexts,
outermost first.  `errors.Is(err, sentinel)` corresponds to equality of
`base`. -/
structure GoErr where
  base : ErrKind
  ctx : List String
deriving DecidableEq

/-- Plain (unwrapped) error of a given kind. -/
def errOf (k : ErrKind) : GoErr := ⟨k, []⟩

/-- Go `fmt.Errorf("ctx: %w", e)`: wrap an error in one more context frame. -/
def wrapErr (c : String) (e : GoErr) : GoErr := ⟨e.base, c :: e.ctx⟩

/-- Go `errors.New(msg)` / non-wrapping `fmt.Errorf`. -/
def genericErr (msg : String) : GoErr := ⟨.generic msg, []⟩

deriving instance DecidableEq for Except

/-! ## Hex characters, addresses (go-ethereum `common` / `encoding/hex`) -/

/-- go-ethereum `isHexCharacter`: `0-9`, `a-f` or `A-F`, written over the
code points (48–57, 97–102, 65–70) since Go compares raw bytes. -/
def isHexDigitChar (c : Char) : Bool :=
  (48 ≤ c.toNat && c.toNat ≤ 57)
    || (97 ≤ c.toNat && c.toNat ≤ 102)
    || (65 ≤ c.toNat && c.toNat ≤ 70)

/-- go-ethereum `has0xPrefix`: the text starts with `0x` or `0X`. -/
def has0x : List Char → Bool
  | '0' :: 'x' :: _ => true
  | '0' :: 'X' :: _ => true
  | _ => false

/-- Whether the text starts with the uppercase variant `0X` specifically. -/
def has0XUpper : List Char → Bool
  | '0' :: 'X' :: _ => true
  | _ => false

/-- go-ethereum `isHex`: even length and hex characters only. -/
def isHexChars (l : List Char) : Bool :=
  (l.length % 2 == 0) && l.all isHexDigitChar

/-- go-ethereum `common.IsHexAddress`: after stripping an optional `0x`/`0X`
prefix, exactly 40 hex characters remain. -/
def IsHexAddress (s : String) : Bool :=
  let t := if has0x s.data then s.data.drop 2 else s.data
  (t.length == 40) && isHexChars t

/-- Go `strings.TrimPrefix(s, "0x")`: strips the exact lowercase prefix
only — an uppercase `0X` prefix is left in place. -/
def trimLower0x : List Char → List Char
  | '0' :: 'x' :: rest => rest
  | l => l

/-- Value of one hex digit, `none` on a non-hex character
(`encoding/hex` `fromHexChar`), over raw code points as in Go. -/
def hexDigitVal (c : Char) : Option Nat :=
  if 48 ≤ c.toNat && c.toNat ≤ 57 then some (c.toNat - 48)
  else if 97 ≤ c.toNat && c.toNat ≤ 102 then some (c.toNat - 87)
  else if 65 ≤ c.toNat && c.toNat ≤ 70 then some (c.toNat - 55)
  else none

/-- Go `hex.DecodeString`: pairs of hex digits become bytes; an invalid
character or an odd-length input is an error. -/
def hexDecodeChars : List Char → Except GoErr (List Nat)
  | [] => .ok []
  | [c] =>
    match hexDigitVal c with
    | none => .error ⟨.decode, ["invalid hex byte"]⟩
    | some _ => .error ⟨.decode, ["odd length hex string"]⟩
  | a :: b :: rest =>
    match hexDigitVal a with
    | none => .error ⟨.decode, ["invalid hex byte"]⟩
    | some hi =>
      match hexDigitVal b with
      | none => .error ⟨.decode, ["invalid hex byte"]⟩
      | some lo =>
        match hexDecodeChars rest with
        | .error e => .error e
        | .ok tail => .ok ((16 * hi + lo) :: tail)

/-- `AddressToBytes` from the repository: validate the address shape, strip a
lowercase `0x` prefix, hex-decode the rest. -/
def AddressToBytes (address : String) : Except GoErr (List Nat) :=
  if IsHexAddress address then hexDecodeChars (trimLower0x address.data)
  else .error (wrapErr address (errOf .invalidAddress))

/-- Hex digit character (lowercase), for encoding directions. -/
def hexDigitChar (d : Nat) : Char :=
  if d < 10 then Char.ofNat (48 + d) else Char.ofNat (87 + d)

/-- go-ethereum `hexutil.Encode`: `0x` followed by two lowercase hex digits
per byte. -/
def hexutilEncode (bs : List Nat) : String :=
  ⟨'0' :: 'x' :: bs.flatMap fun b => [hexDigitChar ((b >>> 4) &&& 15), hexDigitChar (b &&& 15)]⟩

/-- go-ethereum `hexutil.Decode`: requires a non-empty input with a `0x`
prefix, then hex-decodes the remainder. -/
def hexutilDecode (s : String) : Except GoErr (List Nat) :=
  if s.data.isEmpty then .error ⟨.decode, ["empty hex string"]⟩
  else if has0x s.data then hexDecodeChars (s.data.drop 2)
  else .error ⟨.decode, ["hex string without 0x prefix"]⟩

/-! ## Byte-level helpers -/

/-- Big-endian encoding of `n` into `k` bytes (Go `binary.BigEndian.PutUint64`
when `k = 8`); higher bits beyond `8 * k` are dropped, as the Go integer
conversions do. -/
def beBytes (k : Nat) (n : Nat) : List Nat :=
  (List.range k).reverse.map fun i => (n >>> (8 * i)) &&& 0xFF

/-- UTF-8 encoding of one character, as Go lays strings out in memory. -/
def utf8Bytes (c : Char) : List Nat :=
  let n := c.toNat
  if n < 0x80 then [n]
  else if n < 0x800 then
    [0xC0 ||| (n >>> 6), 0x80 ||| (n &&& 0x3F)]
  else if n < 0x10000 then
    [0xE0 ||| (n >>> 12), 0x80 ||| ((n >>> 6) &&& 0x3F), 0x80 ||| (n &&& 0x3F)]
  else
    [0xF0 ||| (n >>> 18), 0x80 ||| ((n >>> 12) &&& 0x3F),
     0x80 ||| ((n >>> 6) &&& 0x3F), 0x80 ||| (n &&& 0x3F)]

/-- The bytes of a Go string. -/
def strBytes (s : String) : List Nat :=
  s.data.flatMap utf8Bytes

/-! ## MessagePack encoding (vmihailenco/msgpack/v5, default encoder)

The default v5 encoder emits the most compact format for each value and, for
Go maps, writes the entries in whatever order Go's runtime iterates the map
— it does not sort keys. -/

/-- The Go `interface{}` values an action payload holds in this repository.
A `.map` carries the entries of a Go `map[string]interface{}` in one
concrete iteration order; Go guarantees no particular order, so the same Go
map is represented by every permutation of the entry list. -/
inductive GoValue where
  | str (s : String)
  | nat (n : Nat)
  | int (i : Int)
  | bool (b : Bool)
  | bytes (bs : List Nat)
  | map (entries : List (String × GoValue))
  | arr (elems : List GoValue)

/-- msgpack string header for a byte length. -/
def mpStrHeader (len : Nat) : List Nat :=
  if len < 32 then [0xA0 ||| len]
  else if len < 256 then [0xD9, len]
  else if len < 65536 then 0xDA :: beBytes 2 len
  else 0xDB :: beBytes 4 len

/-- msgpack encoding of an unsigned integer, most compact form (v5
`Encoder.EncodeUint`). -/
def mpUint (n : Nat) : List Nat :=
  if n < 128 then [n]
  else if n < 256 then [0xCC, n]
  else if n < 65536 then 0xCD :: beBytes 2 n
  else if n < 4294967296 then 0xCE :: beBytes 4 n
  else 0xCF :: beBytes 8 n

/-- msgpack encoding of a signed integer; v5 encodes non-negative values in
the unsigned formats. -/
def mpInt (i : Int) : List Nat :=
  if 0 ≤ i then mpUint i.toNat
  else if -32 ≤ i then [(256 + i).toNat &&& 0xFF]
  else if -128 ≤ i then [0xD0, (256 + i).toNat]
  else if -32768 ≤ i then 0xD1 :: beBytes 2 (65536 + i).toNat
  else if -2147483648 ≤ i then 0xD2 :: beBytes 4 (4294967296 + i).toNat
  else 0xD3 :: beBytes 8 (18446744073709551616 + i).toNat

/-- msgpack map header. -/
def mpMapHeader (n : Nat) : List Nat :=
  if n < 16 then [0x80 ||| n]
  else if n < 65536 then 0xDE :: beBytes 2 n
  else 0xDF :: beBytes 4 n

/-- msgpack array header. -/
def mpArrHeader (n : Nat) : List Nat :=
  if n < 16 then [0x90 ||| n]
  else if n < 65536 then 0xDC :: beBytes 2 n
  else 0xDD :: beBytes 4 n

/-- msgpack bin header. -/
def mpBinHeader (n : Nat) : List Nat :=
  if n < 256 then [0xC4, n]
  else if n < 65536 then 0xC5 :: beBytes 2 n
  else 0xC6 :: beBytes 4 n

/-- msgpack encoding of a string. -/
def mpStr (s : String) : List Nat :=
  mpStrHeader (strBytes s).length ++ strBytes s

mutual

/-- `msgpack.Marshal` on the values of `GoValue`.  Map entries are written
in the order of the entry list, i.e. in the map's iteration order, exactly
as the default v5 encoder does.  Marshalling cannot fail on these value
kinds, so the Go error path is absent. -/
def msgpackValue : GoValue → List Nat
  | .str s => mpStr s
  | .nat n => mpUint n
  | .int i => mpInt i
  | .bool b => if b then [0xC3] else [0xC2]
  | .bytes bs => mpBinHeader bs.length ++ bs
  | .map es => mpMapHeader es.length ++ msgpackEntries es
  | .arr xs => mpArrHeader xs.length ++ msgpackElems xs

/-- Encode map entries: key then value, in list order. -/
def msgpackEntries : List (String × GoValue) → List Nat
  | [] => []
  | (k, v) :: rest => mpStr k ++ msgpackValue v ++ msgpackEntries rest

/-- Encode array elements in order. -/
def msgpackElems : List GoValue → List Nat
  | [] => []
  | v :: rest => msgpackValue v ++ msgpackElems rest

end

/-! ## Keccak-256 (go-ethereum `crypto.Keccak256`)

The pre-NIST Keccak with 0x01 padding domain byte (not SHA3-256's 0x06),
rate 136 bytes, 32-byte digest.  Lanes are `Nat` values below `2 ^ 64`. -/

/-- 64-bit all-ones mask. -/
def mask64 : Nat := 0xFFFFFFFFFFFFFFFF

/-- Rotate a 64-bit lane left by `n < 64` bits. -/
def rotl64 (x n : Nat) : Nat :=
  ((x <<< n) ||| (x >>> (64 - n))) &&& mask64

/-- One step of the degree-8 LFSR `x^8 + x^6 + x^5 + x^4 + 1` that
generates the Keccak round-constant bits (FIPS 202, Algorithm 5). -/
def lfsrNext (r : Nat) : Nat :=
  if r &&& 0x80 = 0x80 then ((r <<< 1) ^^^ 0x71) &&& 0xFF else (r <<< 1) &&& 0xFF

/-- One inner step of the round-constant generator: the LFSR's output bit
lands at lane bit `2 ^ j - 1`. -/
def rcStep (acc : Nat × Nat) (j : Nat) : Nat × Nat :=
  (if acc.2 &&& 1 = 1 then acc.1 ||| (1 <<< (2 ^ j - 1)) else acc.1, lfsrNext acc.2)

/-- Round constants for the given number of remaining rounds, threading the
LFSR state. -/
def keccakRCAux : Nat → Nat → List Nat
  | 0, _ => []
  | n + 1, r =>
    let step := (List.range 7).foldl rcStep (0, r)
    step.1 :: keccakRCAux n step.2

/-- The 24 Keccak round constants, generated from the LFSR seeded with 1. -/
def keccakRC : List Nat := keccakRCAux 24 1

/-- The rho/pi coordinate walk: starting from `(1, 0)`, step `t` assigns
rotation offset `(t+1)(t+2)/2 mod 64` to lane `x + 5*y` and moves to
`(y, (2x+3y) mod 5)`.  Returns `(lane, offset)` pairs. -/
def rhoWalk : Nat → Nat → Nat → Nat → List (Nat × Nat)
  | 0, _, _, _ => []
  | n + 1, t, x, y =>
    (x + 5 * y, ((t + 1) * (t + 2) / 2) % 64) :: rhoWalk n (t + 1) y ((2 * x + 3 * y) % 5)

/-- Rho rotation offsets, indexed by `x + 5 * y` (lane 0 rotates by 0). -/
def rhoOff : List Nat :=
  (List.range 25).map fun i => ((rhoWalk 24 0 1 0).lookup i).getD 0

/-- Lane accessor on the 25-lane state. -/
def lane (st : List Nat) (i : Nat) : Nat := st.getD i 0

/-- One Keccak-f round: theta, rho, pi, chi, iota. -/
def keccakRound (st : List Nat) (rc : Nat) : List Nat :=
  let c := (List.range 5).map fun x =>
    lane st x ^^^ lane st (x + 5) ^^^ lane st (x + 10) ^^^ lane st (x + 15) ^^^ lane st (x + 20)
  let d := (List.range 5).map fun x =>
    (c.getD ((x + 4) % 5) 0) ^^^ rotl64 (c.getD ((x + 1) % 5) 0) 1
  let a := (List.range 25).map fun i => lane st i ^^^ d.getD (i % 5) 0
  let b := (List.range 25).map fun j =>
    -- invert the pi permutation: lane j of B comes from A at (x, y) with
    -- y = j % 5 and x = (3 * (j / 5) + y) % 5
    let y := j % 5
    let x := (3 * (j / 5) + y) % 5
    rotl64 (lane a (x + 5 * y)) (rhoOff.getD (x + 5 * y) 0)
  let e := (List.range 25).map fun i =>
    let x := i % 5
    let y := i / 5
    (b.getD i 0) ^^^ (((b.getD ((x + 1) % 5 + 5 * y) 0) ^^^ mask64) &&& (b.getD ((x + 2) % 5 + 5 * y) 0))
  match e with
  | e0 :: rest => (e0 ^^^ rc) :: rest
  | [] => []

/-- The full Keccak-f[1600] permutation (24 rounds). -/
def keccakF (st : List Nat) : List Nat :=
  keccakRC.foldl keccakRound st

/-- Interpret up to 8 bytes (little-endian) as a 64-bit lane. -/
def bytesToLane (bs : List Nat) : Nat :=
  bs.foldr (fun b acc => acc * 256 + b) 0

/-- Split a 136-byte rate block into 17 lanes. -/
def blockLanes (block : List Nat) : List Nat :=
  (List.range 17).map fun j => bytesToLane ((block.drop (8 * j)).take 8)

/-- Absorb one 136-byte block into the state and permute. -/
def absorbBlock (st : List Nat) (block : List Nat) : List Nat :=
  let lanes := blockLanes block
  keccakF ((List.range 25).map fun i =>
    if i < 17 then lane st i ^^^ lanes.getD i 0 else lane st i)

/-- Absorb `n` consecutive 136-byte blocks of the padded message. -/
def absorbBlocks : Nat → List Nat → List Nat → List Nat
  | 0, st, _ => st
  | n + 1, st, msg => absorbBlocks n (absorbBlock st (msg.take 136)) (msg.drop 136)

/-- Keccak pad10*1 padding to the 136-byte rate: 0x01 domain byte, zeros,
0x80 final byte (0x81 when a single pad byte suffices). -/
def keccakPad (len : Nat) : List Nat :=
  let padLen := 136 - len % 136
  if padLen = 1 then [0x81]
  else 0x01 :: List.replicate (padLen - 2) 0 ++ [0x80]

/-- Serialize one 64-bit lane to 8 little-endian bytes. -/
def laneBytes (x : Nat) : List Nat :=
  (List.range 8).map fun k => (x >>> (8 * k)) &&& 0xFF

/-- Keccak-256: pad, absorb, squeeze the first 32 bytes. -/
def keccak256 (msg : List Nat) : List Nat :=
  let padded := msg ++ keccakPad msg.length
  let st := absorbBlocks (padded.length / 136) (List.replicate 25 0) padded
  (st.take 4).flatMap laneBytes

/-! ## Numeric wire converter (`FloatToDecimal`, `FloatToWire`, `FloatToInt`)

Go `float64` values are modelled as exact rationals.  `fmt.Sprintf("%.*f")`
rounds the (exact) value half-to-even at the requested decimal place;
`strconv.ParseFloat` of the rounded text and `decimal.NewFromString` are
exact on the values reached by the theorems below, so both are the identity
in this model.  `math.Round` rounds half away from zero.

Rational arithmetic is spelled through `mkRat` and integer operations
(rather than the `Rat` field instances) so that every definition evaluates
by kernel reduction on concrete inputs. -/

/-- The rational value of an integer. -/
def ratOfInt (n : Int) : ℚ := mkRat n 1

/-- Product of two rationals. -/
def ratMul (a b : ℚ) : ℚ := mkRat (a.num * b.num) (a.den * b.den)

/-- Difference of two rationals. -/
def ratSub (a b : ℚ) : ℚ :=
  mkRat (a.num * (b.den : Int) - b.num * (a.den : Int)) (a.den * b.den)

/-- Absolute value of a rational (Go `math.Abs`). -/
def ratAbs (q : ℚ) : ℚ := mkRat (q.num.natAbs : Int) q.den

/-- The rational `10 ^ p` (Go `math.Pow10`, exact in this range). -/
def ratPow10 (p : Nat) : ℚ := mkRat ((10 : Int) ^ p) 1

/-- Round a rational to the nearest integer, ties to the even integer — the
rounding `fmt.Sprintf("%.*f")` applies at the last kept digit.  Written
with the floored quotient `q` and remainder `r` of `num / den`, so that the
value lies in `[q, q+1)` and `2 * r` against `den` decides the half. -/
def roundHalfEven (y : ℚ) : Int :=
  let q := Int.fdiv y.num y.den
  let r := y.num - q * (y.den : Int)
  if 2 * r < (y.den : Int) then q
  else if (y.den : Int) < 2 * r then q + 1
  else if q % 2 = 0 then q else q + 1

/-- Go `fmt.Sprintf("%.*f", places, x)` as a rational: the numeric value of
the printed text. -/
def fmtRound (x : ℚ) (places : Nat) : ℚ :=
  mkRat (roundHalfEven (ratMul x (ratPow10 places))) (10 ^ places)

/-- Go `math.Round`: round to the nearest integer, ties away from zero. -/
def mathRound (y : ℚ) : Int :=
  let q := Int.fdiv y.num y.den
  let r := y.num - q * (y.den : Int)
  if 2 * r < (y.den : Int) then q
  else if (y.den : Int) < 2 * r then q + 1
  else if 0 ≤ y.num then q + 1 else q

/-- `PrecisionThreshold` from `utils/types.go` (`1e-12`). -/
def PrecisionThreshold : ℚ := mkRat 1 (10 ^ 12)

/-- The process-wide `decimalCache`, keyed by the exact input float — the
`places` argument is not part of the key. -/
abbrev DecCache := List (ℚ × ℚ)

/-- `FloatToDecimal` with the global cache passed explicitly: cache lookup,
round to `places` digits, parse back (exact here), tolerance check against
`PrecisionThreshold`, strip of a spurious "-0" sign (invisible on exact
rationals), insertion into the cache when it is below 1000 entries and
`|x| < 1000000`.  The locking discipline serializes reads and writes, so
explicit state passing captures each call's effect. -/
def FloatToDecimal (cache : DecCache) (x : ℚ) (places : Nat) :
    Except GoErr ℚ × DecCache :=
  match cache.lookup x with
  | some d => (.ok d, cache)
  | none =>
    let rounded := fmtRound x places
    if PrecisionThreshold ≤ ratAbs (ratSub rounded x) then
      (.error (errOf .precisionLoss), cache)
    else if cache.length < 1000 ∧ ratAbs x < ratOfInt 1000000 then
      (.ok rounded, (x, rounded) :: cache)
    else
      (.ok rounded, cache)

/-- Fuel-bounded search for the least power of ten clearing the denominator
of a decimal-valued rational. -/
def decExp : ℚ → Nat → Nat
  | _, 0 => 0
  | q, fuel + 1 => if q.den = 1 then 0 else 1 + decExp (ratMul q (ratOfInt 10)) fuel

/-- Decimal digit character. -/
def digitChar (d : Nat) : Char := Char.ofNat (48 + d)

/-- Decimal digits of a natural number, most significant first (fuel is any
bound above the digit count). -/
def natDigits : Nat → Nat → List Char
  | 0, _ => []
  | fuel + 1, n => if n < 10 then [digitChar n] else natDigits fuel (n / 10) ++ [digitChar (n % 10)]

/-- Decimal text of a natural number. -/
def natStr (n : Nat) : String := ⟨natDigits (n + 1) n⟩

/-- shopspring `Decimal.String()` on a decimal-valued rational: minimal
exponent (trailing zeros trimmed), sign, digits, decimal point. -/
def decString (d : ℚ) : String :=
  let p := decExp d 400
  let n := (ratMul d (ratPow10 p)).num
  let sign : List Char := if n < 0 then ['-'] else []
  let ds := natDigits (n.natAbs + 1) n.natAbs
  if p = 0 then ⟨sign ++ ds⟩
  else
    let ds := if ds.length < p + 1 then List.replicate (p + 1 - ds.length) '0' ++ ds else ds
    ⟨sign ++ ds.take (ds.length - p) ++ '.' :: ds.drop (ds.length - p)⟩

/-- `DefaultDecimalPlaces` from `utils/types.go`. -/
def DefaultDecimalPlaces : Nat := 8

/-- `FloatToWire`: precise string form of a float via `FloatToDecimal` at 8
places.  The NaN/infinity guard has no counterpart on rationals. -/
def FloatToWire (cache : DecCache) (x : ℚ) : Except GoErr String × DecCache :=
  match FloatToDecimal cache x DefaultDecimalPlaces with
  | (.ok d, c) => (.ok (decString d), c)
  | (.error e, c) => (.error e, c)

/-- `FloatToInt`: scale by `10 ^ places`, reject a residue of `1e-3` or more
as precision loss, round half away from zero, reject values outside the
int64 range.  The Go overflow test `float64(int64(r)) != r` accepts exactly
the rounded values `r` with `-2^63 ≤ r < 2^63` (every float64 integer of
magnitude at least `2^63` round-trips unequal), which the range check below
restates. -/
def FloatToInt (x : ℚ) (places : Nat) : Except GoErr Int :=
  let scale : ℚ := ratPow10 places
  let withDecimals := ratMul x scale
  if mkRat 1 1000 ≤ ratAbs (ratSub (ratOfInt (mathRound withDecimals)) withDecimals) then
    .error (errOf .precisionLoss)
  else
    let result := mathRound withDecimals
    if result < -(2 ^ 63) ∨ 2 ^ 63 ≤ result then
      .error (errOf .overflow)
    else
      .ok result

/-! ## Order and signature data types (`utils/types.go`) -/

/-- `LimitOrderType`: the time-in-force tag. -/
structure LimitOrderType where
  TIF : String
deriving DecidableEq

/-- `TriggerOrderType` with a rational trigger price. -/
structure TriggerOrderType where
  TriggerPx : ℚ
  IsMarket : Bool
  TPSL : String
deriving DecidableEq

/-- `TriggerOrderTypeWire`: trigger price already converted to wire text. -/
structure TriggerOrderTypeWire where
  TriggerPx : String
  IsMarket : Bool
  TPSL : String
deriving DecidableEq

/-- `OrderType`: Go's pair of nillable pointers, one arm per variant. -/
structure OrderType where
  Limit : Option LimitOrderType
  Trigger : Option TriggerOrderType
deriving DecidableEq

/-- `OrderTypeWire`. -/
structure OrderTypeWire where
  Limit : Option LimitOrderType
  Trigger : Option TriggerOrderTypeWire
deriving DecidableEq

/-- `OrderRequest`. -/
structure OrderRequest where
  Coin : String
  IsBuy : Bool
  Size : ℚ
  LimitPrice : ℚ
  OrderType : OrderType
  ReduceOnly : Bool
  Cloid : Option String
deriving DecidableEq

/-- `OrderWire`. -/
structure OrderWire where
  Asset : Int
  IsBuy : Bool
  Price : String
  Size : String
  ReduceOnly : Bool
  «Type» : OrderTypeWire
  Cloid : Option String
deriving DecidableEq

/-- `OrderRequest.Validate`, clause for clause. -/
def OrderRequest.Validate (o : OrderRequest) : Option GoErr :=
  if o.Size ≤ 0 then some (genericErr "size must be positive")
  else if o.LimitPrice ≤ 0 then some (genericErr "limit price must be positive")
  else if o.OrderType.Limit.isNone && o.OrderType.Trigger.isNone then
    some (errOf .invalidOrderType)
  else
    match o.OrderType.Trigger with
    | some t => if t.TriggerPx ≤ 0 then some (genericErr "trigger price must be positive") else none
    | none => none

/-- `OrderTypeToWire`: the limit arm wins when present; otherwise the
trigger arm is converted; with neither arm, `ErrInvalidOrderType`. -/
def OrderTypeToWire (cache : DecCache) (orderType : OrderType) :
    Except GoErr OrderTypeWire × DecCache :=
  match orderType.Limit with
  | some l => (.ok ⟨some l, none⟩, cache)
  | none =>
    match orderType.Trigger with
    | some t =>
      match FloatToWire cache t.TriggerPx with
      | (.error e, c) => (.error (wrapErr "converting trigger price" e), c)
      | (.ok wirePrice, c) => (.ok ⟨none, some ⟨wirePrice, t.IsMarket, t.TPSL⟩⟩, c)
    | none => (.error (errOf .invalidOrderType), cache)

/-- `OrderRequestToOrderWire`: validate, convert the order type, then the
limit price and the size, and assemble the wire order. -/
def OrderRequestToOrderWire (cache : DecCache) (order : OrderRequest) (asset : Int) :
    Except GoErr OrderWire × DecCache :=
  match order.Validate with
  | some e => (.error (wrapErr "invalid order request" e), cache)
  | none =>
    match OrderTypeToWire cache order.OrderType with
    | (.error e, c) => (.error (wrapErr "converting order type" e), c)
    | (.ok wireType, c) =>
      match FloatToWire c order.LimitPrice with
      | (.error e, c) => (.error (wrapErr "converting limit price" e), c)
      | (.ok wirePrice, c) =>
        match FloatToWire c order.Size with
        | (.error e, c) => (.error (wrapErr "converting size" e), c)
        | (.ok wireSize, c) =>
          (.ok ⟨asset, order.IsBuy, wirePrice, wireSize, order.ReduceOnly, wireType, order.Cloid⟩, c)

/-! ## Signature field types and multi-sig enrichment -/

/-- `SignatureType`: one EIP-712 field declaration.  The Go field named
`Type` is called `TypeName` here because `Type` is reserved in Lean. -/
structure SignatureType where
  Name : String
  TypeName : String
deriving DecidableEq

/-- `USDSendSignTypes` from `utils/types.go`. -/
def USDSendSignTypes : List SignatureType :=
  [⟨"hyperliquidChain", "string"⟩,
   ⟨"destination", "string"⟩,
   ⟨"amount", "string"⟩,
   ⟨"time", "uint64"⟩]

/-- `EIP712DomainFields` from `utils/types.go`. -/
def EIP712DomainFields : List SignatureType :=
  [⟨"name", "string"⟩,
   ⟨"version", "string"⟩,
   ⟨"chainId", "uint256"⟩,
   ⟨"verifyingContract", "address"⟩]

/-- The two fields `AddMultiSigTypes` splices in. -/
def payloadMultiSigUserField : SignatureType := ⟨"payloadMultiSigUser", "address"⟩

/-- Companion spliced field. -/
def outerSignerField : SignatureType := ⟨"outerSigner", "address"⟩

/-- The loop body of `AddMultiSigTypes`: every entry is kept, and each entry
named `hyperliquidChain` is followed by the two extra fields. -/
def enrichTypes : List SignatureType → List SignatureType
  | [] => []
  | t :: rest =>
    (if t.Name = "hyperliquidChain" then [t, payloadMultiSigUserField, outerSignerField]
     else [t]) ++ enrichTypes rest

/-- `AddMultiSigTypes`: the `enriched` flag of the Go loop is set exactly
when some entry is named `hyperliquidChain`; without one the function fails
with `ErrInvalidSignatureChain`. -/
def AddMultiSigTypes (signTypes : List SignatureType) : Except GoErr (List SignatureType) :=
  if signTypes.any fun t => t.Name == "hyperliquidChain" then .ok (enrichTypes signTypes)
  else .error (errOf .invalidSignatureChain)

/-! ## Action hashing and the phantom agent -/

/-- `ActionHash`: msgpack-marshal the action, append the 8-byte big-endian
nonce, append the vault-address tag (a zero byte, or a one byte plus the
decoded address), and Keccak-256 the result.  Marshalling of `GoValue`
cannot fail, so only the address path returns an error. -/
def ActionHash (action : GoValue) (vaultAddress : String) (nonce : Nat) :
    Except GoErr (List Nat) :=
  let data := msgpackValue action
  let data := data ++ beBytes 8 nonce
  if vaultAddress = "" then .ok (keccak256 (data ++ [0]))
  else
    match AddressToBytes vaultAddress with
    | .error e => .error (wrapErr "processing vault address" e)
    | .ok addrBytes => .ok (keccak256 (data ++ [1] ++ addrBytes))

/-- The phantom agent record.  The Go function returns a two-entry
`map[string]interface{}` with keys `source` and `connectionId`; the record
carries the same two fields. -/
structure PhantomAgent where
  source : String
  connectionId : String
deriving DecidableEq

/-- `ConstructPhantomAgent`: `source` is `"a"`, overwritten to `"b"` off
mainnet; `connectionId` is the `hexutil.Encode` of the digest. -/
def ConstructPhantomAgent (hash : List Nat) (isMainnet : Bool) : PhantomAgent :=
  { source := if isMainnet then "a" else "b"
    connectionId := hexutilEncode hash }

/-! ## EIP-712 typed data and the user-signed flow -/

/-- `EIP712Domain` (the Go struct; its `ToMap` form appears below). -/
structure EIP712Domain where
  Name : String
  Version : String
  ChainID : Int
  VerifyingContract : String

/-- `EIP712Domain.ToMap`.  The entry order shown is one iteration order of
the Go map literal; no theorem below depends on it. -/
def EIP712Domain.ToMap (d : EIP712Domain) : GoValue :=
  .map [("name", .str d.Name), ("version", .str d.Version),
        ("chainId", .int d.ChainID), ("verifyingContract", .str d.VerifyingContract)]

/-- `DefaultHyperliquidDomain`. -/
def DefaultHyperliquidDomain : EIP712Domain :=
  ⟨"HyperliquidSignTransaction", "1", 421614, "0x0000000000000000000000000000000000000000"⟩

/-- `SignatureTypesToMap`: each field declaration becomes a two-entry map. -/
def SignatureTypesToMap (types : List SignatureType) : GoValue :=
  .arr (types.map fun t => .map [("name", .str t.Name), ("type", .str t.TypeName)])

/-- `createEIP712TypedData`: domain, primary type, caller types plus the
fixed `EIP712Domain` descriptor, and the message. -/
def createEIP712TypedData (domain : EIP712Domain) (primaryType : String)
    (message : GoValue) (types : List (String × List SignatureType)) : GoValue :=
  .map [("domain", domain.ToMap),
        ("primaryType", .str primaryType),
        ("types", .map ((types.map fun p => (p.1, SignatureTypesToMap p.2)) ++
          [("EIP712Domain", SignatureTypesToMap EIP712DomainFields)])),
        ("message", message)]

/-- Go map assignment `m[k] = v` on an entry list: replace the value of an
existing key in place, otherwise append the new entry. -/
def mapSet : List (String × GoValue) → String → GoValue → List (String × GoValue)
  | [], k, v => [(k, v)]
  | (k', v') :: rest, k, v =>
    if k' = k then (k, v) :: rest else (k', v') :: mapSet rest k v

/-- `SignUserSignedAction` up to the wallet boundary: copy the action map,
inject `signatureChainId` and `hyperliquidChain`, assemble the typed data
under the Hyperliquid domain, msgpack it, and return the bytes that are
handed to `wallet.SignMessage`.  A `.ok` result means the wallet's signing
capability is invoked on those bytes; no key validation of any kind happens
before that point. -/
def SignUserSignedActionBytes (action : List (String × GoValue))
    (payloadTypes : List SignatureType) (primaryType : String) (isMainnet : Bool) :
    Except GoErr (List Nat) :=
  let actionCopy := action
  let actionCopy := mapSet actionCopy "signatureChainId" (.str "0x66eee")
  let actionCopy := mapSet actionCopy "hyperliquidChain"
    (.str (if isMainnet then "Mainnet" else "Testnet"))
  let typedData := createEIP712TypedData DefaultHyperliquidDomain primaryType
    (.map actionCopy) [(primaryType, payloadTypes)]
  .ok (msgpackValue typedData)

/-! ## Signature verification -/

/-- `Signature`: r and s as hex text, v as the recovery byte. -/
structure Signature where
  R : String
  S : String
  V : Nat
deriving DecidableEq

/-- The elliptic-curve capability consumed by `VerifySignature`, abstracted:
`ecrecover` maps a digest and a 65-byte signature to a public key (or
fails), `unmarshalPubkey` parses it (or fails), `pubkeyToAddress` derives
the 20 address bytes.  Every theorem about `VerifySignature` holds for all
instantiations, so nothing depends on the curve arithmetic. -/
structure EcdsaOracle where
  ecrecover : List Nat → List Nat → Except GoErr (List Nat)
  unmarshalPubkey : List Nat → Except GoErr (List Nat)
  pubkeyToAddress : List Nat → List Nat

/-- `HashMessage`: Keccak-256 of the personal-message prefix (with the
decimal byte length) followed by the message. -/
def HashMessage (message : List Nat) : List Nat :=
  keccak256 (strBytes ("\x19Ethereum Signed Message:\n" ++ natStr message.length) ++ message)

/-- `VerifySignature`, line for line: address shape check, address decode,
hex decode of r and s, personal-message digest, key recovery, key parse,
and finally byte equality of the recovered and expected addresses. -/
def VerifySignature (oracle : EcdsaOracle) (address : String) (message : List Nat)
    (sig : Signature) : Except GoErr Bool :=
  if IsHexAddress address then
    match AddressToBytes address with
    | .error e => .error e
    | .ok addrBytes =>
      match hexutilDecode sig.R with
      | .error e => .error (wrapErr "invalid R value" e)
      | .ok r =>
        match hexutilDecode sig.S with
        | .error e => .error (wrapErr "invalid S value" e)
        | .ok s =>
          match oracle.ecrecover (HashMessage message) (r ++ s ++ [sig.V]) with
          | .error e => .error (wrapErr "recovering public key" e)
          | .ok pubKey =>
            match oracle.unmarshalPubkey pubKey with
            | .error e => .error (wrapErr "unmarshaling public key" e)
            | .ok ecdsaPubKey =>
              .ok (oracle.pubkeyToAddress ecdsaPubKey == addrBytes)
  else .error (wrapErr address (errOf .invalidAddress))

/-! ## Heap model for the mutation claims

Go maps are reference values: writing through one reference is visible
through every alias.  `Heap` makes the references explicit — a reference is
an index into the list of live maps — so that "the callee does not mutate
its argument" is a real statement about the code rather than an artifact of
a value-level translation. -/

/-- Entry list of one Go map. -/
abbrev GoMap := List (String × GoValue)

/-- The live `map[string]interface{}` objects; a reference is an index. -/
structure Heap where
  maps : List GoMap

/-- Dereference (a dangling reference reads as the empty map). -/
def Heap.get (h : Heap) (r : Nat) : GoMap := h.maps.getD r []

/-- `make(map[string]interface{})` plus initialization: allocate a fresh
map object holding the given entries and return its reference. -/
def Heap.alloc (h : Heap) (m : GoMap) : Heap × Nat :=
  (⟨h.maps ++ [m]⟩, h.maps.length)

/-- Go `m[k] = v` through a reference: mutate the referenced map object. -/
def Heap.assign (h : Heap) (r : Nat) (k : String) (v : GoValue) : Heap :=
  ⟨h.maps.set r (mapSet (h.get r) k v)⟩

/-- Association-list lookup on a Go map value. -/
def mapGet (m : GoMap) (k : String) : Option GoValue :=
  match m with
  | [] => none
  | (k', v) :: rest => if k' = k then some v else mapGet rest k

/-- The allocation and field-injection steps of `SignUserSignedAction` on
the explicit heap: copy the entries of the argument map into a freshly
allocated map, then write `signatureChainId` and `hyperliquidChain` through
the fresh reference only. -/
def signUserSignedActionAlloc (h : Heap) (r : Nat) (isMainnet : Bool) : Heap × Nat :=
  let (h1, rc) := h.alloc (h.get r)
  let h2 := h1.assign rc "signatureChainId" (.str "0x66eee")
  let h3 := h2.assign rc "hyperliquidChain"
    (.str (if isMainnet then "Mainnet" else "Testnet"))
  (h3, rc)

/-- ASCII lowercasing of one character (`strings.ToLower` restricted to the
ASCII range, which covers address text). -/
def toLowerChar (c : Char) : Char :=
  if 'A' ≤ c && c ≤ 'Z' then Char.ofNat (c.toNat + 32) else c

/-- ASCII lowercasing of address text. -/
def toLowerStr (s : String) : String := ⟨s.data.map toLowerChar⟩

/-- `AddMultiSigFields` on the explicit heap: copy the argument map into a
fresh allocation, then write the two lowercased signer addresses through
the fresh reference only. -/
def addMultiSigFieldsAlloc (h : Heap) (r : Nat)
    (payloadMultiSigUser outerSigner : String) : Heap × Nat :=
  let (h1, rc) := h.alloc (h.get r)
  let h2 := h1.assign rc "payloadMultiSigUser" (.str (toLowerStr payloadMultiSigUser))
  let h3 := h2.assign rc "outerSigner" (.str (toLowerStr outerSigner))
  (h3, rc)

/-! ## Concrete instances used by the theorems below -/

/-- An order request with both order-type arms populated. -/
def bothArmsRequest : OrderRequest :=
  { Coin := "ETH", IsBuy := true, Size := mkRat 1 1, LimitPrice := mkRat 1 1,
    OrderType := { Limit := some ⟨"Gtc"⟩, Trigger := some ⟨mkRat 1 1, false, "tp"⟩ },
    ReduceOnly := false, Cloid := none }

/-- An order request with a non-positive size. -/
def zeroSizeRequest : OrderRequest :=
  { Coin := "ETH", IsBuy := true, Size := mkRat 0 1, LimitPrice := mkRat 1 1,
    OrderType := { Limit := some ⟨"Gtc"⟩, Trigger := none },
    ReduceOnly := false, Cloid := none }

/-- An order request with neither order-type arm populated. -/
def noArmsRequest : OrderRequest :=
  { Coin := "ETH", IsBuy := true, Size := mkRat 1 1, LimitPrice := mkRat 1 1,
    OrderType := { Limit := none, Trigger := none },
    ReduceOnly := false, Cloid := none }

/-- A fixed instantiation of the elliptic-curve capability: recovery and
parsing always succeed with constant byte strings. -/
def constantOracle : EcdsaOracle :=
  { ecrecover := fun _ _ => .ok [1]
    unmarshalPubkey := fun _ => .ok [2]
    pubkeyToAddress := fun _ => [3, 4] }

/-- An instantiation of the elliptic-curve capability whose recovery step
always fails, as on an unrecoverable signature. -/
def failingRecoveryOracle : EcdsaOracle :=
  { ecrecover := fun _ _ => .error (genericErr "invalid signature recovery id")
    unmarshalPubkey := fun _ => .ok [2]
    pubkeyToAddress := fun _ => [3, 4] }

/-- An instantiation of the elliptic-curve capability whose public-key
parsing step always fails. -/
def failingUnmarshalOracle : EcdsaOracle :=
  { ecrecover := fun _ _ => .ok [1]
    unmarshalPubkey := fun _ => .error (genericErr "invalid public key")
    pubkeyToAddress := fun _ => [3, 4] }

/-- A one-map heap for the mutation witnesses. -/
def singletonHeap : Heap := ⟨[[("amount", .str "1"), ("time", .nat 7)]]⟩

/-! ## Theorems -/

set_option maxRecDepth 1000000

/-- `enrichTypes` distributes over concatenation. -/
theorem enrichTypes_append (a b : List SignatureType) :
    enrichTypes (a ++ b) = enrichTypes a ++ enrichTypes b := by
  induction a with
  | nil => rfl
  | cons t rest ih => simp [enrichTypes, ih]

/-- `enrichTypes` leaves a list without the marker field unchanged. -/
theorem enrichTypes_of_no_marker (l : List SignatureType)
    (h : ∀ u ∈ l, u.Name ≠ "hyperliquidChain") : enrichTypes l = l := by
  induction l with
  | nil => rfl
  | cons t rest ih =>
    have ht : t.Name ≠ "hyperliquidChain" := h t (List.mem_cons_self t rest)
    simp only [enrichTypes, if_neg ht, List.singleton_append, List.cons.injEq, true_and]
    exact ih fun u hu => h u (List.mem_cons_of_mem t hu)

/-- A list containing the marker field makes the `any` probe of
`AddMultiSigTypes` succeed. -/
theorem any_marker_of_mem (pre post : List SignatureType) (t : SignatureType)
    (ht : t.Name = "hyperliquidChain") :
    ((pre ++ t :: post).any fun u => u.Name == "hyperliquidChain") = true := by
  refine List.any_eq_true.mpr ⟨t, ?_, ?_⟩
  · exact List.mem_append_right pre (List.mem_cons_self t post)
  · exact beq_iff_eq.mpr ht

/-- Claim C5 (amended): a type list holding exactly one field named
`hyperliquidChain` — written as `pre ++ t :: post` with the marker at
position `pre.length` — enriches to the same list with
`payloadMultiSigUser` and `outerSigner` spliced immediately after the
marker, for a total length of `len + 2`; a list with no such field fails
with `ErrInvalidSignatureChain`.  (On lists with several marker fields the
code splices after each one; see the counterexample.) -/
theorem addMultiSigTypes_single_marker (pre post : List SignatureType)
    (t : SignatureType) (ht : t.Name = "hyperliquidChain")
    (hpre : ∀ u ∈ pre, u.Name ≠ "hyperliquidChain")
    (hpost : ∀ u ∈ post, u.Name ≠ "hyperliquidChain") :
    (AddMultiSigTypes (pre ++ t :: post)
      = .ok (pre ++ t :: payloadMultiSigUserField :: outerSignerField :: post)
    ∧ (pre ++ t :: payloadMultiSigUserField :: outerSignerField :: post).length
      = (pre ++ t :: post).length + 2
    ∧ (pre ++ t :: post)[pre.length]? = some t)
    ∧ ∀ l, (∀ u ∈ l, u.Name ≠ "hyperliquidChain") →
        AddMultiSigTypes l = .error (errOf .invalidSignatureChain) := by
  constructor
  · refine ⟨?_, ?_, ?_⟩
    · unfold AddMultiSigTypes
      rw [if_pos (any_marker_of_mem pre post t ht)]
      rw [enrichTypes_append, enrichTypes_of_no_marker pre hpre]
      simp only [enrichTypes, if_pos ht, enrichTypes_of_no_marker post hpost,
        List.cons_append, List.nil_append, List.singleton_append]
    · simp only [List.length_append, List.length_cons]
      omega
    · rw [List.getElem?_append_right (Nat.le_refl pre.length), Nat.sub_self]
      simp
  · intro l hl
    unfold AddMultiSigTypes
    rw [if_neg]
    simp only [List.any_eq_true, not_exists, not_and]
    intro u hu
    simpa using hl u hu

/-- Claim C5 witness: the splice at a concrete singleton list and the
failure at a concrete marker-free list. -/
theorem addMultiSigTypes_single_marker_witness :
    (AddMultiSigTypes [⟨"hyperliquidChain", "string"⟩]
      = .ok [⟨"hyperliquidChain", "string"⟩, payloadMultiSigUserField, outerSignerField])
    ∧ AddMultiSigTypes [⟨"destination", "string"⟩]
      = .error (errOf .invalidSignatureChain) := by
  have h := addMultiSigTypes_single_marker [] [] ⟨"hyperliquidChain", "string"⟩ rfl
    (by intro u hu; cases hu) (by intro u hu; cases hu)
  exact ⟨h.1.1, h.2 [⟨"destination", "string"⟩] (by decide)⟩

/-- Claim C5 counterexample: on a list with two `hyperliquidChain` fields
the code splices after both, so the enriched list has length `len + 4`,
not `len + 2` as the claim states for every list containing the field. -/
theorem addMultiSigTypes_double_marker :
    AddMultiSigTypes [⟨"hyperliquidChain", "string"⟩, ⟨"hyperliquidChain", "string"⟩]
      = .ok [⟨"hyperliquidChain", "string"⟩, payloadMultiSigUserField, outerSignerField,
             ⟨"hyperliquidChain", "string"⟩, payloadMultiSigUserField, outerSignerField]
    ∧ ([⟨"hyperliquidChain", "string"⟩, payloadMultiSigUserField, outerSignerField,
        ⟨"hyperliquidChain", "string"⟩, payloadMultiSigUserField, outerSignerField] :
        List SignatureType).length
      ≠ ([⟨"hyperliquidChain", "string"⟩, ⟨"hyperliquidChain", "string"⟩] :
        List SignatureType).length + 2 := by decide

/-- Claim C9: the phantom agent builder is total (its Lean type is a plain
function), tags `source` with `"a"` on mainnet and `"b"` otherwise, and
sets `connectionId` to the hex encoding of the digest. -/
theorem constructPhantomAgent_spec (hash : List Nat) (isMainnet : Bool) :
    (ConstructPhantomAgent hash true).source = "a"
    ∧ (ConstructPhantomAgent hash false).source = "b"
    ∧ (ConstructPhantomAgent hash isMainnet).connectionId = hexutilEncode hash :=
  ⟨rfl, rfl, rfl⟩

/-- Claim C3: the memoization cache is not transparent.  A first call
`FloatToDecimal(1.5, 8)` succeeds and stores `1.5` under the key `1.5`
(the `places` argument is not part of the key); a second call
`FloatToDecimal(1.5, 0)` then returns `1.5` from the cache, while the same
call on a cold cache fails with `ErrPrecisionLoss` (rounding `1.5` to zero
decimals moves it by `0.5 ≥ 1e-12`). -/
theorem floatToDecimal_cache_changes_result :
    (FloatToDecimal [] (mkRat 3 2) 8).1 = .ok (mkRat 3 2)
    ∧ (FloatToDecimal [] (mkRat 3 2) 8).2 = [(mkRat 3 2, mkRat 3 2)]
    ∧ (FloatToDecimal [(mkRat 3 2, mkRat 3 2)] (mkRat 3 2) 0).1 = .ok (mkRat 3 2)
    ∧ (FloatToDecimal [] (mkRat 3 2) 0).1 = .error (errOf .precisionLoss) := by decide

/-- Claim C4 counterexample: `FloatToInt(1.5, 0)` does not return `2`; the
scaled value `1.5` sits `0.5 ≥ 1e-3` away from its rounding, so the call
fails with `ErrPrecisionLoss` before any rounding result is returned. -/
theorem floatToInt_half_is_precision_loss :
    FloatToInt (mkRat 3 2) 0 = .error (errOf .precisionLoss)
    ∧ FloatToInt (mkRat 3 2) 0 ≠ .ok 2 := by decide

/-- Claim C4 (amended): `FloatToInt` scales by `10 ^ places`; when the
scaled value differs from its nearest integer (ties away from zero) by
`1e-3` or more it fails with `ErrPrecisionLoss`; otherwise it rounds half
away from zero and range-checks the result against the int64 bounds,
failing with the overflow error outside `[-2^63, 2^63)` and returning the
rounded integer inside. -/
theorem floatToInt_spec (x : ℚ) (places : Nat) :
    (mkRat 1 1000 ≤ ratAbs (ratSub (ratOfInt (mathRound (ratMul x (ratPow10 places))))
        (ratMul x (ratPow10 places))) →
      FloatToInt x places = .error (errOf .precisionLoss))
    ∧ (¬ mkRat 1 1000 ≤ ratAbs (ratSub (ratOfInt (mathRound (ratMul x (ratPow10 places))))
        (ratMul x (ratPow10 places))) →
      ((mathRound (ratMul x (ratPow10 places)) < -(2 ^ 63)
          ∨ 2 ^ 63 ≤ mathRound (ratMul x (ratPow10 places))) →
        FloatToInt x places = .error (errOf .overflow))
      ∧ (¬ (mathRound (ratMul x (ratPow10 places)) < -(2 ^ 63)
          ∨ 2 ^ 63 ≤ mathRound (ratMul x (ratPow10 places))) →
        FloatToInt x places = .ok (mathRound (ratMul x (ratPow10 places))))) := by
  refine ⟨fun h => ?_, fun h => ⟨fun ho => ?_, fun ho => ?_⟩⟩
  · unfold FloatToInt
    rw [if_pos h]
  · unfold FloatToInt
    rw [if_neg h, if_pos ho]
  · unfold FloatToInt
    rw [if_neg h, if_neg ho]

/-- Claim C4 witness: the three branches at `1.5`, `2 ^ 64` and `2`. -/
theorem floatToInt_spec_witness :
    FloatToInt (mkRat 3 2) 0 = .error (errOf .precisionLoss)
    ∧ FloatToInt (ratOfInt (2 ^ 64)) 0 = .error (errOf .overflow)
    ∧ FloatToInt (mkRat 2 1) 0 = .ok 2 := by
  refine ⟨(floatToInt_spec (mkRat 3 2) 0).1 (by decide), ?_, ?_⟩
  · exact ((floatToInt_spec (ratOfInt (2 ^ 64)) 0).2 (by decide)).1 (by decide)
  · have h := ((floatToInt_spec (mkRat 2 1) 0).2 (by decide)).2 (by decide)
    rwa [show mathRound (ratMul (mkRat 2 1) (ratPow10 0)) = 2 from by decide] at h

/-- Claim C1: the byte sequence `ActionHash` feeds to Keccak-256 *does*
depend on the map iteration order.  The same two-entry Go map, iterated in
its two possible orders, msgpack-marshals to different byte sequences and
hashes to different digests — so for map-valued actions the digest is not
deterministic across runs, contradicting the claimed order independence
(the specification itself flags this as a latent defect of the code). -/
theorem actionHash_depends_on_iteration_order :
    [("a", GoValue.nat 1), ("b", GoValue.nat 2)].Perm
      [("b", GoValue.nat 2), ("a", GoValue.nat 1)]
    ∧ msgpackValue (.map [("a", .nat 1), ("b", .nat 2)])
      ≠ msgpackValue (.map [("b", .nat 2), ("a", .nat 1)])
    ∧ ActionHash (.map [("a", .nat 1), ("b", .nat 2)]) "" 0
      ≠ ActionHash (.map [("b", .nat 2), ("a", .nat 1)]) "" 0 :=
  ⟨List.Perm.swap _ _ _, by decide, by decide⟩

/-- Claim C6: `SignUserSignedAction` performs no validation of the action's
field names against the supplied type list.  An action whose only field is
named `bogusField` — a name absent from `USDSendSignTypes` — is not
rejected: the call reaches the wallet's signing capability with the
msgpack-encoded typed data. -/
theorem signUserSignedAction_signs_unknown_fields :
    (USDSendSignTypes.all fun t => t.Name != "bogusField") = true
    ∧ ∃ bs, SignUserSignedActionBytes [("bogusField", .str "x")] USDSendSignTypes
        "HyperliquidTransaction:UsdSend" true = .ok bs := by
  exact ⟨by decide, ⟨_, rfl⟩⟩

/-- The only error `FloatToDecimal` can produce is the precision-loss
sentinel; in particular error results are never taken from the cache. -/
theorem floatToDecimal_error_base (cache : DecCache) (x : ℚ) (places : Nat) (e : GoErr)
    (h : (FloatToDecimal cache x places).1 = .error e) : e = errOf .precisionLoss := by
  unfold FloatToDecimal at h
  cases hl : cache.lookup x with
  | some d => rw [hl] at h; simp at h
  | none =>
    rw [hl] at h
    by_cases h1 : PrecisionThreshold ≤ ratAbs (ratSub (fmtRound x places) x)
    · rw [if_pos h1] at h
      simp only [Except.error.injEq] at h
      exact h.symm
    · rw [if_neg h1] at h
      by_cases h2 : cache.length < 1000 ∧ ratAbs x < ratOfInt 1000000
      · rw [if_pos h2] at h; simp at h
      · rw [if_neg h2] at h; simp at h

/-- The only error `FloatToWire` can produce is the precision-loss
sentinel. -/
theorem floatToWire_error_base (cache : DecCache) (x : ℚ) (e : GoErr)
    (h : (FloatToWire cache x).1 = .error e) : e = errOf .precisionLoss := by
  unfold FloatToWire at h
  rcases hf : FloatToDecimal cache x DefaultDecimalPlaces with ⟨fst, snd⟩
  rw [hf] at h
  cases fst with
  | ok d => simp at h
  | error e2 =>
    simp only [Except.error.injEq] at h
    rw [← h]
    exact floatToDecimal_error_base cache x DefaultDecimalPlaces e2 (by rw [hf])

/-- When the limit arm of an order is populated, `Validate` never fails
with `ErrInvalidOrderType` (its errors are the message-only positivity
errors). -/
theorem validate_base_of_limit (o : OrderRequest) (l : LimitOrderType)
    (hl : o.OrderType.Limit = some l) (e : GoErr) (h : o.Validate = some e) :
    e.base ≠ .invalidOrderType := by
  unfold OrderRequest.Validate at h
  split_ifs at h with h1 h2 h3
  · cases h; decide
  · cases h; decide
  · rw [hl] at h3; simp at h3
  · cases ht : o.OrderType.Trigger with
    | none => rw [ht] at h; simp at h
    | some t =>
      rw [ht] at h
      simp only [] at h
      by_cases hpx : t.TriggerPx ≤ 0
      · simp only [if_pos hpx, Option.some.injEq] at h
        rw [← h]
        decide
      · simp only [if_neg hpx] at h
        simp at h

/-- Running `OrderRequestToOrderWire` on a validated order whose limit arm
is populated reduces to the two float conversions with the limit wire
type. -/
theorem orderRequestToOrderWire_limit_run (cache : DecCache) (order : OrderRequest)
    (asset : Int) (l : LimitOrderType) (hl : order.OrderType.Limit = some l)
    (hv : order.Validate = none) :
    OrderRequestToOrderWire cache order asset =
      match FloatToWire cache order.LimitPrice with
      | (.error e, c) => (.error (wrapErr "converting limit price" e), c)
      | (.ok wirePrice, c) =>
        match FloatToWire c order.Size with
        | (.error e, c) => (.error (wrapErr "converting size" e), c)
        | (.ok wireSize, c) =>
          (.ok ⟨asset, order.IsBuy, wirePrice, wireSize, order.ReduceOnly,
            ⟨some l, none⟩, order.Cloid⟩, c) := by
  have hw2 : OrderTypeToWire cache order.OrderType = (.ok ⟨some l, none⟩, cache) := by
    unfold OrderTypeToWire; rw [hl]
  unfold OrderRequestToOrderWire
  rw [hv, hw2]

/-- Claim C7 (amended): `OrderRequestToOrderWire` rejects a non-positive
size, rejects a non-positive limit price, and fails with
`ErrInvalidOrderType` when neither order-type arm is populated; but when
both arms are populated the request is *not* rejected for that reason —
the limit arm takes precedence and any remaining failure is a positivity
or precision error, never `ErrInvalidOrderType`. -/
theorem orderRequestToOrderWire_validation (cache : DecCache) (order : OrderRequest)
    (asset : Int) :
    (order.Size ≤ 0 →
      (OrderRequestToOrderWire cache order asset).1
        = .error (wrapErr "invalid order request" (genericErr "size must be positive")))
    ∧ (¬ order.Size ≤ 0 → order.LimitPrice ≤ 0 →
      (OrderRequestToOrderWire cache order asset).1
        = .error (wrapErr "invalid order request" (genericErr "limit price must be positive")))
    ∧ (¬ order.Size ≤ 0 → ¬ order.LimitPrice ≤ 0 →
        order.OrderType.Limit = none → order.OrderType.Trigger = none →
      (OrderRequestToOrderWire cache order asset).1
        = .error (wrapErr "invalid order request" (errOf .invalidOrderType)))
    ∧ (∀ l, order.OrderType.Limit = some l →
        (∀ e, (OrderRequestToOrderWire cache order asset).1 = .error e →
          e.base ≠ .invalidOrderType)
        ∧ (∀ w, (OrderRequestToOrderWire cache order asset).1 = .ok w →
          w.«Type» = ⟨some l, none⟩)) := by
  refine ⟨fun h => ?_, fun h h2 => ?_, fun h h2 hl ht => ?_, fun l hl => ⟨fun e he => ?_, fun w hw => ?_⟩⟩
  · have hv : order.Validate = some (genericErr "size must be positive") := by
      unfold OrderRequest.Validate; rw [if_pos h]
    unfold OrderRequestToOrderWire
    rw [hv]
  · have hv : order.Validate = some (genericErr "limit price must be positive") := by
      unfold OrderRequest.Validate; rw [if_neg h, if_pos h2]
    unfold OrderRequestToOrderWire
    rw [hv]
  · have hv : order.Validate = some (errOf .invalidOrderType) := by
      unfold OrderRequest.Validate
      rw [if_neg h, if_neg h2, if_pos (by rw [hl, ht]; rfl)]
    unfold OrderRequestToOrderWire
    rw [hv]
  · cases hv : order.Validate with
    | some e0 =>
      unfold OrderRequestToOrderWire at he
      rw [hv] at he
      simp only [Except.error.injEq] at he
      rw [← he]
      exact validate_base_of_limit order l hl e0 hv
    | none =>
      rw [orderRequestToOrderWire_limit_run cache order asset l hl hv] at he
      rcases hp : FloatToWire cache order.LimitPrice with ⟨pfst, pc⟩
      rw [hp] at he
      cases pfst with
      | error ep =>
        simp only [Except.error.injEq] at he
        rw [← he]
        have hb := floatToWire_error_base cache order.LimitPrice ep (by rw [hp])
        rw [hb]
        decide
      | ok sp =>
        simp only [] at he
        rcases hs : FloatToWire pc order.Size with ⟨sfst, sc⟩
        rw [hs] at he
        cases sfst with
        | error es =>
          simp only [Except.error.injEq] at he
          rw [← he]
          have hb := floatToWire_error_base pc order.Size es (by rw [hs])
          rw [hb]
          decide
        | ok ss => simp at he
  · cases hv : order.Validate with
    | some e0 =>
      unfold OrderRequestToOrderWire at hw
      rw [hv] at hw
      simp at hw
    | none =>
      rw [orderRequestToOrderWire_limit_run cache order asset l hl hv] at hw
      rcases hp : FloatToWire cache order.LimitPrice with ⟨pfst, pc⟩
      rw [hp] at hw
      cases pfst with
      | error ep => simp at hw
      | ok sp =>
        simp only [] at hw
        rcases hs : FloatToWire pc order.Size with ⟨sfst, sc⟩
        rw [hs] at hw
        cases sfst with
        | error es => simp at hw
        | ok ss =>
          simp only [Except.ok.injEq] at hw
          rw [← hw]

/-- Claim C7 witness: the size error at a zero-size order, the
`ErrInvalidOrderType` error at an order with no arms, and the limit-arm
wire type at an order with both arms. -/
theorem orderRequestToOrderWire_validation_witness :
    (OrderRequestToOrderWire [] zeroSizeRequest 1).1
      = .error (wrapErr "invalid order request" (genericErr "size must be positive"))
    ∧ (OrderRequestToOrderWire [] noArmsRequest 1).1
      = .error (wrapErr "invalid order request" (errOf .invalidOrderType))
    ∧ (⟨1, true, "1", "1", false, ⟨some ⟨"Gtc"⟩, none⟩, none⟩ : OrderWire).«Type»
      = ⟨some ⟨"Gtc"⟩, none⟩ := by
  refine ⟨(orderRequestToOrderWire_validation [] zeroSizeRequest 1).1 (by decide),
    (orderRequestToOrderWire_validation [] noArmsRequest 1).2.2.1
      (by decide) (by decide) rfl rfl, ?_⟩
  exact ((orderRequestToOrderWire_validation [] bothArmsRequest 1).2.2.2 ⟨"Gtc"⟩ rfl).2
    ⟨1, true, "1", "1", false, ⟨some ⟨"Gtc"⟩, none⟩, none⟩ (by decide)

/-- Claim C7 counterexample: a request with both order-type arms populated
is not rejected — conversion succeeds and the limit arm is used. -/
theorem orderWire_accepts_both_arms :
    bothArmsRequest.OrderType.Limit.isSome = true
    ∧ bothArmsRequest.OrderType.Trigger.isSome = true
    ∧ (OrderRequestToOrderWire [] bothArmsRequest 1).1
      = .ok ⟨1, true, "1", "1", false, ⟨some ⟨"Gtc"⟩, none⟩, none⟩ := by decide

/-- A hex character has a digit value. -/
theorem hexDigitVal_isSome (c : Char) (h : isHexDigitChar c = true) :
    ∃ v, hexDigitVal c = some v := by
  unfold hexDigitVal
  by_cases h1 : (48 ≤ c.toNat && c.toNat ≤ 57) = true
  · exact ⟨_, by rw [if_pos h1]⟩
  · by_cases h2 : (97 ≤ c.toNat && c.toNat ≤ 102) = true
    · exact ⟨_, by rw [if_neg h1, if_pos h2]⟩
    · by_cases h3 : (65 ≤ c.toNat && c.toNat ≤ 70) = true
      · exact ⟨_, by rw [if_neg h1, if_neg h2, if_pos h3]⟩
      · exfalso
        unfold isHexDigitChar at h
        simp only [Bool.or_eq_true] at h
        rcases h with (h | h) | h
        · exact h1 h
        · exact h2 h
        · exact h3 h

/-- Hex decoding succeeds on an even-length list of hex characters, with
one byte for each pair of digits. -/
theorem hexDecodeChars_ok : ∀ l : List Char, (∀ c ∈ l, isHexDigitChar c = true) →
    l.length % 2 = 0 → ∃ bs, hexDecodeChars l = .ok bs ∧ bs.length = l.length / 2
  | [], _, _ => ⟨[], rfl, rfl⟩
  | [c], _, heven => by simp at heven
  | a :: b :: rest, hhex, heven => by
    obtain ⟨va, hva⟩ := hexDigitVal_isSome a (hhex a (by simp))
    obtain ⟨vb, hvb⟩ := hexDigitVal_isSome b (hhex b (by simp))
    obtain ⟨bs, hbs, hlen⟩ := hexDecodeChars_ok rest
      (fun c hc => hhex c (by simp [hc]))
      (by simp only [List.length_cons] at heven; omega)
    refine ⟨(16 * va + vb) :: bs, ?_, ?_⟩
    · simp only [hexDecodeChars, hva, hvb, hbs]
    · simp only [List.length_cons, hlen]
      omega

/-- Every error of the hex decoder carries the decode base. -/
theorem hexDecodeChars_error_base : ∀ (l : List Char) (e : GoErr),
    hexDecodeChars l = .error e → e.base = .decode
  | [], e, h => by simp [hexDecodeChars] at h
  | [c], e, h => by
    unfold hexDecodeChars at h
    cases hc : hexDigitVal c with
    | none => rw [hc] at h; simp only [Except.error.injEq] at h; rw [← h]
    | some v => rw [hc] at h; simp only [Except.error.injEq] at h; rw [← h]
  | a :: b :: rest, e, h => by
    unfold hexDecodeChars at h
    cases ha : hexDigitVal a with
    | none => rw [ha] at h; simp only [Except.error.injEq] at h; rw [← h]
    | some va =>
      rw [ha] at h
      simp only [] at h
      cases hb : hexDigitVal b with
      | none => rw [hb] at h; simp only [Except.error.injEq] at h; rw [← h]
      | some vb =>
        rw [hb] at h
        simp only [] at h
        cases hr : hexDecodeChars rest with
        | error e2 =>
          rw [hr] at h
          simp only [Except.error.injEq] at h
          rw [← h]
          exact hexDecodeChars_error_base rest e2 hr
        | ok tail => rw [hr] at h; simp at h

/-- A list that does not start with `0x`/`0X` is untouched by the
lowercase trim. -/
theorem trimLower0x_of_not_has0x (l : List Char) (h : has0x l = false) :
    trimLower0x l = l := by
  rw [trimLower0x.eq_def]
  split
  · next tail => simp [has0x] at h
  · rfl

/-- A well-shaped address without the uppercase `0X` prefix hex-decodes to
its 20 address bytes. -/
theorem addressToBytes_ok (v : String) (hv : IsHexAddress v = true)
    (hx : has0XUpper v.data = false) :
    ∃ bs, AddressToBytes v = .ok bs ∧ bs.length = 20 := by
  have key : (trimLower0x v.data).length = 40
      ∧ ∀ c ∈ trimLower0x v.data, isHexDigitChar c = true := by
    unfold IsHexAddress at hv
    by_cases h0 : has0x v.data = true
    · obtain ⟨rest, hrest⟩ : ∃ rest, v.data = '0' :: 'x' :: rest := by
        rw [has0x.eq_def] at h0
        split at h0
        · next tail heq => exact ⟨tail, heq⟩
        · next tail heq => rw [heq] at hx; simp [has0XUpper] at hx
        · simp at h0
      rw [if_pos h0, hrest] at hv
      simp only [Bool.and_eq_true, beq_iff_eq, List.drop_succ_cons, List.drop_zero] at hv
      rw [hrest]
      refine ⟨by simpa using hv.1, ?_⟩
      have := hv.2
      unfold isHexChars at this
      simp only [Bool.and_eq_true, List.all_eq_true, decide_eq_true_eq] at this
      intro c hc
      exact this.2 c (by simpa using hc)
    · rw [if_neg (by simpa using h0)] at hv
      rw [trimLower0x_of_not_has0x v.data (by simpa using h0)]
      simp only [Bool.and_eq_true, beq_iff_eq] at hv
      refine ⟨hv.1, ?_⟩
      have := hv.2
      unfold isHexChars at this
      simp only [Bool.and_eq_true, List.all_eq_true, decide_eq_true_eq] at this
      exact this.2
  obtain ⟨bs, hbs, hlen⟩ := hexDecodeChars_ok (trimLower0x v.data) key.2 (by rw [key.1])
  refine ⟨bs, ?_, ?_⟩
  · unfold AddressToBytes
    rw [if_pos hv, hbs]
  · rw [hlen, key.1]

/-- A well-shaped address with the uppercase `0X` prefix slips past the
shape check but fails hex decoding: `strings.TrimPrefix` only strips the
lowercase `0x`, so the decoder meets the letter `X`. -/
theorem addressToBytes_upper0X (v : String) (hv : IsHexAddress v = true)
    (hx : has0XUpper v.data = true) :
    AddressToBytes v = .error ⟨.decode, ["invalid hex byte"]⟩ := by
  obtain ⟨rest, hrest⟩ : ∃ rest, v.data = '0' :: 'X' :: rest := by
    rw [has0XUpper.eq_def] at hx
    split at hx
    · next tail heq => exact ⟨tail, heq⟩
    · simp at hx
  unfold AddressToBytes
  rw [if_pos hv, hrest]
  rfl

/-- Claim C2 (amended): `ActionHash` hashes with Keccak-256 exactly the
concatenation of the msgpack serialization of the action, the 8-byte
big-endian nonce, and the vault tag — a zero byte for the empty vault, or
a one byte plus the 20 decoded address bytes.  A vault address failing the
hex-address shape check yields the `ErrInvalidAddress` error; an address
passing the check but carrying the uppercase `0X` prefix is not decodable
after the lowercase-only trim and yields a hex-decode error instead of an
address error. -/
theorem actionHash_characterization (action : GoValue) (vault : String) (nonce : Nat) :
    (vault = "" →
      ActionHash action vault nonce
        = .ok (keccak256 (msgpackValue action ++ beBytes 8 nonce ++ [0])))
    ∧ (vault ≠ "" → IsHexAddress vault = false →
      ActionHash action vault nonce
        = .error (wrapErr "processing vault address" (wrapErr vault (errOf .invalidAddress))))
    ∧ (IsHexAddress vault = true → has0XUpper vault.data = false →
      ∃ bs, AddressToBytes vault = .ok bs ∧ bs.length = 20
        ∧ ActionHash action vault nonce
          = .ok (keccak256 (msgpackValue action ++ beBytes 8 nonce ++ 1 :: bs)))
    ∧ (IsHexAddress vault = true → has0XUpper vault.data = true →
      ActionHash action vault nonce
        = .error (wrapErr "processing vault address" ⟨.decode, ["invalid hex byte"]⟩)) := by
  refine ⟨fun h => ?_, fun hne hv => ?_, fun hv hx => ?_, fun hv hx => ?_⟩
  · unfold ActionHash
    rw [if_pos h]
  · have hab : AddressToBytes vault = .error (wrapErr vault (errOf .invalidAddress)) := by
      unfold AddressToBytes
      rw [if_neg (by simp [hv])]
    unfold ActionHash
    rw [if_neg hne, hab]
  · obtain ⟨bs, hbs, hlen⟩ := addressToBytes_ok vault hv hx
    have hne : vault ≠ "" := by
      intro he
      rw [he] at hv
      exact absurd hv (by decide)
    refine ⟨bs, hbs, hlen, ?_⟩
    unfold ActionHash
    rw [if_neg hne, hbs]
    simp [List.append_assoc]
  · have hne : vault ≠ "" := by
      intro he
      rw [he] at hv
      exact absurd hv (by decide)
    unfold ActionHash
    rw [if_neg hne, addressToBytes_upper0X vault hv hx]

/-- Claim C2 witness: the four branches at concrete vault addresses. -/
theorem actionHash_characterization_witness :
    ActionHash (.map []) "" 5
      = .ok (keccak256 (msgpackValue (.map []) ++ beBytes 8 5 ++ [0]))
    ∧ ActionHash (.map []) "zz" 0
      = .error (wrapErr "processing vault address" (wrapErr "zz" (errOf .invalidAddress)))
    ∧ (∃ bs, AddressToBytes "0x1111111111111111111111111111111111111111" = .ok bs
        ∧ bs.length = 20
        ∧ ActionHash (.map []) "0x1111111111111111111111111111111111111111" 0
          = .ok (keccak256 (msgpackValue (.map []) ++ beBytes 8 0 ++ 1 :: bs)))
    ∧ ActionHash (.map []) "0X1111111111111111111111111111111111111111" 0
      = .error (wrapErr "processing vault address" ⟨.decode, ["invalid hex byte"]⟩) :=
  ⟨(actionHash_characterization (.map []) "" 5).1 rfl,
    (actionHash_characterization (.map []) "zz" 0).2.1 (by decide) (by decide),
    (actionHash_characterization (.map []) "0x1111111111111111111111111111111111111111" 0).2.2.1
      (by decide) (by decide),
    (actionHash_characterization (.map []) "0X1111111111111111111111111111111111111111" 0).2.2.2
      (by decide) (by decide)⟩

/-- Claim C2 counterexample: the vault address `0X1111…` (uppercase `X`)
passes the hex-address shape check, yet `ActionHash` fails with a
hex-decode error — not an `AddressError`, and with no digest — because the
trim removes only a lowercase `0x` prefix. -/
theorem actionHash_upper0X_counterexample :
    IsHexAddress "0X1111111111111111111111111111111111111111" = true
    ∧ ActionHash (.map [("type", .str "order")])
        "0X1111111111111111111111111111111111111111" 0
      = .error ⟨.decode, ["processing vault address", "invalid hex byte"]⟩
    ∧ ErrKind.decode ≠ ErrKind.invalidAddress := by decide

/-- Every error of `hexutil.Decode` carries the decode base. -/
theorem hexutilDecode_error_base (s : String) (e : GoErr)
    (h : hexutilDecode s = .error e) : e.base = .decode := by
  unfold hexutilDecode at h
  by_cases h1 : s.data.isEmpty = true
  · rw [if_pos h1] at h
    simp only [Except.error.injEq] at h
    rw [← h]
  · rw [if_neg h1] at h
    by_cases h2 : has0x s.data = true
    · rw [if_pos h2] at h
      exact hexDecodeChars_error_base _ e h
    · rw [if_neg h2] at h
      simp only [Except.error.injEq] at h
      rw [← h]

/-- `AddressToBytes` succeeds only on addresses passing the shape check. -/
theorem isHexAddress_of_addressToBytes_ok (address : String) (ab : List Nat)
    (hab : AddressToBytes address = .ok ab) : IsHexAddress address = true := by
  by_contra hfalse
  unfold AddressToBytes at hab
  rw [if_neg hfalse] at hab
  simp at hab

/-- Claim C8 (amended): `VerifySignature` never returns a silent false.
An expected address failing the hex-shape check yields the
`ErrInvalidAddress` error; an address passing the check whose decoding
still fails (the uppercase `0X` prefix) yields that decode error; a
malformed r or s hex string yields a wrapped decode error; a failing
recovery or key parse yields the wrapped capability error; and when every
step succeeds the result is exactly the byte-equality of the recovered
address with the expected address bytes, computed over the Keccak-256
personal-message digest. -/
theorem verifySignature_spec (o : EcdsaOracle) (address : String) (message : List Nat)
    (sig : Signature) :
    (IsHexAddress address = false →
      VerifySignature o address message sig
        = .error (wrapErr address (errOf .invalidAddress)))
    ∧ (∀ e, IsHexAddress address = true → AddressToBytes address = .error e →
      VerifySignature o address message sig = .error e ∧ e.base = .decode)
    ∧ (∀ ab e, AddressToBytes address = .ok ab → hexutilDecode sig.R = .error e →
      VerifySignature o address message sig = .error (wrapErr "invalid R value" e)
        ∧ e.base = .decode)
    ∧ (∀ ab r e, AddressToBytes address = .ok ab → hexutilDecode sig.R = .ok r →
        hexutilDecode sig.S = .error e →
      VerifySignature o address message sig = .error (wrapErr "invalid S value" e)
        ∧ e.base = .decode)
    ∧ (∀ ab r s e, AddressToBytes address = .ok ab → hexutilDecode sig.R = .ok r →
        hexutilDecode sig.S = .ok s →
        o.ecrecover (HashMessage message) (r ++ s ++ [sig.V]) = .error e →
      VerifySignature o address message sig
        = .error (wrapErr "recovering public key" e))
    ∧ (∀ ab r s pub e, AddressToBytes address = .ok ab → hexutilDecode sig.R = .ok r →
        hexutilDecode sig.S = .ok s →
        o.ecrecover (HashMessage message) (r ++ s ++ [sig.V]) = .ok pub →
        o.unmarshalPubkey pub = .error e →
      VerifySignature o address message sig
        = .error (wrapErr "unmarshaling public key" e))
    ∧ (∀ ab r s pub pk, AddressToBytes address = .ok ab → hexutilDecode sig.R = .ok r →
        hexutilDecode sig.S = .ok s →
        o.ecrecover (HashMessage message) (r ++ s ++ [sig.V]) = .ok pub →
        o.unmarshalPubkey pub = .ok pk →
      VerifySignature o address message sig = .ok (o.pubkeyToAddress pk == ab)
        ∧ HashMessage message
          = keccak256 (strBytes ("\x19Ethereum Signed Message:\n"
              ++ natStr message.length) ++ message)) := by
  refine ⟨fun hv => ?_, fun e hv hab => ⟨?_, ?_⟩, fun ab e hab hr => ⟨?_, ?_⟩,
    fun ab r e hab hr hs => ⟨?_, ?_⟩, fun ab r s e hab hr hs hrec => ?_,
    fun ab r s pub e hab hr hs hrec hum => ?_,
    fun ab r s pub pk hab hr hs hrec hum => ⟨?_, rfl⟩⟩
  · unfold VerifySignature
    rw [if_neg (by simp [hv])]
  · unfold VerifySignature
    rw [if_pos hv, hab]
  · unfold AddressToBytes at hab
    rw [if_pos hv] at hab
    exact hexDecodeChars_error_base _ e hab
  · unfold VerifySignature
    rw [if_pos (isHexAddress_of_addressToBytes_ok address ab hab), hab]
    simp only []
    rw [hr]
  · exact hexutilDecode_error_base _ e hr
  · unfold VerifySignature
    rw [if_pos (isHexAddress_of_addressToBytes_ok address ab hab), hab]
    simp only []
    rw [hr]
    simp only []
    rw [hs]
  · exact hexutilDecode_error_base _ e hs
  · unfold VerifySignature
    rw [if_pos (isHexAddress_of_addressToBytes_ok address ab hab), hab]
    simp only []
    rw [hr]
    simp only []
    rw [hs]
    simp only []
    rw [hrec]
  · unfold VerifySignature
    rw [if_pos (isHexAddress_of_addressToBytes_ok address ab hab), hab]
    simp only []
    rw [hr]
    simp only []
    rw [hs]
    simp only []
    rw [hrec]
    simp only []
    rw [hum]
  · unfold VerifySignature
    rw [if_pos (isHexAddress_of_addressToBytes_ok address ab hab), hab]
    simp only []
    rw [hr]
    simp only []
    rw [hs]
    simp only []
    rw [hrec]
    simp only []
    rw [hum]

/-- Claim C8 witness: all seven branches at concrete inputs. -/
theorem verifySignature_spec_witness :
    VerifySignature constantOracle "zz" [] ⟨"0x01", "0x02", 27⟩
      = .error (wrapErr "zz" (errOf .invalidAddress))
    ∧ VerifySignature constantOracle "0X1111111111111111111111111111111111111111" []
        ⟨"0x01", "0x02", 27⟩ = .error ⟨.decode, ["invalid hex byte"]⟩
    ∧ VerifySignature constantOracle "0x1111111111111111111111111111111111111111" []
        ⟨"xx", "0x02", 27⟩
      = .error (wrapErr "invalid R value" ⟨.decode, ["hex string without 0x prefix"]⟩)
    ∧ VerifySignature constantOracle "0x1111111111111111111111111111111111111111" []
        ⟨"0x01", "", 27⟩
      = .error (wrapErr "invalid S value" ⟨.decode, ["empty hex string"]⟩)
    ∧ VerifySignature failingRecoveryOracle "0x1111111111111111111111111111111111111111" []
        ⟨"0x01", "0x02", 27⟩
      = .error (wrapErr "recovering public key" (genericErr "invalid signature recovery id"))
    ∧ VerifySignature failingUnmarshalOracle "0x1111111111111111111111111111111111111111" []
        ⟨"0x01", "0x02", 27⟩
      = .error (wrapErr "unmarshaling public key" (genericErr "invalid public key"))
    ∧ VerifySignature constantOracle "0x1111111111111111111111111111111111111111" []
        ⟨"0x01", "0x02", 27⟩
      = .ok (constantOracle.pubkeyToAddress [2] == List.replicate 20 17) :=
  ⟨(verifySignature_spec constantOracle "zz" [] ⟨"0x01", "0x02", 27⟩).1 (by decide),
    ((verifySignature_spec constantOracle "0X1111111111111111111111111111111111111111" []
        ⟨"0x01", "0x02", 27⟩).2.1 ⟨.decode, ["invalid hex byte"]⟩ (by decide) (by decide)).1,
    ((verifySignature_spec constantOracle "0x1111111111111111111111111111111111111111" []
        ⟨"xx", "0x02", 27⟩).2.2.1 (List.replicate 20 17)
        ⟨.decode, ["hex string without 0x prefix"]⟩ (by decide) (by decide)).1,
    ((verifySignature_spec constantOracle "0x1111111111111111111111111111111111111111" []
        ⟨"0x01", "", 27⟩).2.2.2.1 (List.replicate 20 17) [1]
        ⟨.decode, ["empty hex string"]⟩ (by decide) (by decide) (by decide)).1,
    (verifySignature_spec failingRecoveryOracle "0x1111111111111111111111111111111111111111" []
        ⟨"0x01", "0x02", 27⟩).2.2.2.2.1 (List.replicate 20 17) [1] [2]
        (genericErr "invalid signature recovery id") (by decide) (by decide) (by decide) rfl,
    (verifySignature_spec failingUnmarshalOracle "0x1111111111111111111111111111111111111111" []
        ⟨"0x01", "0x02", 27⟩).2.2.2.2.2.1 (List.replicate 20 17) [1] [2] [1]
        (genericErr "invalid public key") (by decide) (by decide) (by decide) rfl rfl,
    ((verifySignature_spec constantOracle "0x1111111111111111111111111111111111111111" []
        ⟨"0x01", "0x02", 27⟩).2.2.2.2.2.2 (List.replicate 20 17) [1] [2] [1] [2]
        (by decide) (by decide) (by decide) rfl rfl).1⟩

/-- Claim C8 counterexample: the expected address `0X1111…` (uppercase
`X`) is malformed with respect to the `0x` + lowercase-hex address format,
yet `VerifySignature` reports a hex-decode error rather than an
`AddressError`, because the shape check admits `0X` while the decode path
strips only the lowercase prefix. -/
theorem verifySignature_upper0X_counterexample :
    IsHexAddress "0X1111111111111111111111111111111111111111" = true
    ∧ VerifySignature constantOracle "0X1111111111111111111111111111111111111111" []
        ⟨"0x01", "0x02", 27⟩ = .error ⟨.decode, ["invalid hex byte"]⟩
    ∧ ErrKind.decode ≠ ErrKind.invalidAddress := by decide

/-- Allocation does not disturb existing map objects. -/
theorem heap_get_alloc_old (h : Heap) (m : GoMap) (r : Nat) (hr : r < h.maps.length) :
    (h.alloc m).1.get r = h.get r := by
  unfold Heap.alloc Heap.get
  rw [List.getD_eq_getElem?_getD, List.getD_eq_getElem?_getD, List.getElem?_append_left hr]

/-- The fresh reference reads back the allocated entries. -/
theorem heap_get_alloc_new (h : Heap) (m : GoMap) :
    (h.alloc m).1.get h.maps.length = m := by
  unfold Heap.alloc Heap.get
  rw [List.getD_eq_getElem?_getD, List.getElem?_concat_length]
  rfl

/-- Writing through one reference does not disturb a different one. -/
theorem heap_get_assign_other (h : Heap) (r' r : Nat) (k : String) (v : GoValue)
    (hne : r' ≠ r) : (h.assign r' k v).get r = h.get r := by
  unfold Heap.assign Heap.get
  rw [List.getD_eq_getElem?_getD, List.getElem?_set_ne hne]
  exact (List.getD_eq_getElem?_getD _ _ _).symm

/-- Writing through a live reference updates exactly that map object. -/
theorem heap_get_assign_self (h : Heap) (r : Nat) (k : String) (v : GoValue)
    (hr : r < h.maps.length) :
    (h.assign r k v).get r = mapSet (h.get r) k v := by
  unfold Heap.assign Heap.get
  rw [List.getD_eq_getElem?_getD, List.getElem?_set_self hr]
  rfl

/-- Assignment preserves the number of live map objects. -/
theorem heap_assign_length (h : Heap) (r : Nat) (k : String) (v : GoValue) :
    (h.assign r k v).maps.length = h.maps.length := by
  unfold Heap.assign
  exact List.length_set h.maps r _

/-- A map write leaves the values of all other keys unchanged. -/
theorem mapGet_mapSet_other (m : GoMap) (k k' : String) (v : GoValue) (hne : k' ≠ k) :
    mapGet (mapSet m k v) k' = mapGet m k' := by
  induction m with
  | nil =>
    unfold mapSet mapGet
    rw [if_neg (fun hh => hne hh.symm)]
    rfl
  | cons kv rest ih =>
    obtain ⟨k0, v0⟩ := kv
    unfold mapSet
    by_cases h0 : k0 = k
    · rw [if_pos h0]
      unfold mapGet
      rw [if_neg (fun hh => hne hh.symm), h0, if_neg (fun hh => hne hh.symm)]
    · rw [if_neg h0]
      unfold mapGet
      by_cases h1 : k0 = k'
      · rw [if_pos h1, if_pos h1]
      · rw [if_neg h1, if_neg h1]
        exact ih

/-- A map write is read back at its key. -/
theorem mapGet_mapSet_self (m : GoMap) (k : String) (v : GoValue) :
    mapGet (mapSet m k v) k = some v := by
  induction m with
  | nil => simp [mapSet, mapGet]
  | cons kv rest ih =>
    obtain ⟨k0, v0⟩ := kv
    unfold mapSet
    by_cases h0 : k0 = k
    · rw [if_pos h0]
      unfold mapGet
      rw [if_pos rfl]
    · rw [if_neg h0]
      unfold mapGet
      rw [if_neg h0]
      exact ih

/-- Claim C10: neither `SignUserSignedAction` nor `AddMultiSigFields`
mutates the caller's action map.  On the explicit heap, each call leaves
the argument's map object untouched, returns a distinct freshly allocated
reference, and the fresh copy holds the injected fields plus the values of
every pre-existing key other than the injected ones. -/
theorem signing_copies_do_not_mutate (h : Heap) (r : Nat) (mainnet : Bool)
    (pms outs : String) (hr : r < h.maps.length) :
    ((signUserSignedActionAlloc h r mainnet).1.get r = h.get r
      ∧ (signUserSignedActionAlloc h r mainnet).2 ≠ r
      ∧ mapGet ((signUserSignedActionAlloc h r mainnet).1.get
            (signUserSignedActionAlloc h r mainnet).2) "signatureChainId"
          = some (.str "0x66eee")
      ∧ mapGet ((signUserSignedActionAlloc h r mainnet).1.get
            (signUserSignedActionAlloc h r mainnet).2) "hyperliquidChain"
          = some (.str (if mainnet then "Mainnet" else "Testnet"))
      ∧ ∀ k, k ≠ "signatureChainId" → k ≠ "hyperliquidChain" →
          mapGet ((signUserSignedActionAlloc h r mainnet).1.get
            (signUserSignedActionAlloc h r mainnet).2) k = mapGet (h.get r) k)
    ∧ ((addMultiSigFieldsAlloc h r pms outs).1.get r = h.get r
      ∧ (addMultiSigFieldsAlloc h r pms outs).2 ≠ r
      ∧ mapGet ((addMultiSigFieldsAlloc h r pms outs).1.get
            (addMultiSigFieldsAlloc h r pms outs).2) "payloadMultiSigUser"
          = some (.str (toLowerStr pms))
      ∧ mapGet ((addMultiSigFieldsAlloc h r pms outs).1.get
            (addMultiSigFieldsAlloc h r pms outs).2) "outerSigner"
          = some (.str (toLowerStr outs))
      ∧ ∀ k, k ≠ "payloadMultiSigUser" → k ≠ "outerSigner" →
          mapGet ((addMultiSigFieldsAlloc h r pms outs).1.get
            (addMultiSigFieldsAlloc h r pms outs).2) k = mapGet (h.get r) k) := by
  have hner : h.maps.length ≠ r := Nat.ne_of_gt hr
  have halloc_len : ∀ m : GoMap, (h.alloc m).1.maps.length = h.maps.length + 1 := by
    intro m
    unfold Heap.alloc
    simp
  constructor
  · have hrc : (signUserSignedActionAlloc h r mainnet).2 = h.maps.length := rfl
    have hcopy : (signUserSignedActionAlloc h r mainnet).1.get h.maps.length
        = mapSet (mapSet (h.get r) "signatureChainId" (.str "0x66eee")) "hyperliquidChain"
            (.str (if mainnet then "Mainnet" else "Testnet")) := by
      show (((h.alloc (h.get r)).1.assign h.maps.length "signatureChainId"
          (.str "0x66eee")).assign h.maps.length "hyperliquidChain"
          (.str (if mainnet then "Mainnet" else "Testnet"))).get h.maps.length = _
      rw [heap_get_assign_self _ _ _ _
        (by rw [heap_assign_length, halloc_len]; omega)]
      rw [heap_get_assign_self _ _ _ _ (by rw [halloc_len]; omega)]
      rw [heap_get_alloc_new h (h.get r)]
    refine ⟨?_, by rw [hrc]; exact hner, ?_, ?_, ?_⟩
    · show (((h.alloc (h.get r)).1.assign h.maps.length "signatureChainId"
          (.str "0x66eee")).assign h.maps.length "hyperliquidChain"
          (.str (if mainnet then "Mainnet" else "Testnet"))).get r = h.get r
      rw [heap_get_assign_other _ _ _ _ _ hner, heap_get_assign_other _ _ _ _ _ hner,
        heap_get_alloc_old h _ r hr]
    · rw [hrc, hcopy]
      rw [mapGet_mapSet_other _ _ _ _ (by decide), mapGet_mapSet_self]
    · rw [hrc, hcopy, mapGet_mapSet_self]
    · intro k hk1 hk2
      rw [hrc, hcopy, mapGet_mapSet_other _ _ _ _ hk2, mapGet_mapSet_other _ _ _ _ hk1]
  · have hrc : (addMultiSigFieldsAlloc h r pms outs).2 = h.maps.length := rfl
    have hcopy : (addMultiSigFieldsAlloc h r pms outs).1.get h.maps.length
        = mapSet (mapSet (h.get r) "payloadMultiSigUser" (.str (toLowerStr pms)))
            "outerSigner" (.str (toLowerStr outs)) := by
      show (((h.alloc (h.get r)).1.assign h.maps.length "payloadMultiSigUser"
          (.str (toLowerStr pms))).assign h.maps.length "outerSigner"
          (.str (toLowerStr outs))).get h.maps.length = _
      rw [heap_get_assign_self _ _ _ _
        (by rw [heap_assign_length, halloc_len]; omega)]
      rw [heap_get_assign_self _ _ _ _ (by rw [halloc_len]; omega)]
      rw [heap_get_alloc_new h (h.get r)]
    refine ⟨?_, by rw [hrc]; exact hner, ?_, ?_, ?_⟩
    · show (((h.alloc (h.get r)).1.assign h.maps.length "payloadMultiSigUser"
          (.str (toLowerStr pms))).assign h.maps.length "outerSigner"
          (.str (toLowerStr outs))).get r = h.get r
      rw [heap_get_assign_other _ _ _ _ _ hner, heap_get_assign_other _ _ _ _ _ hner,
        heap_get_alloc_old h _ r hr]
    · rw [hrc, hcopy]
      rw [mapGet_mapSet_other _ _ _ _ (by decide), mapGet_mapSet_self]
    · rw [hrc, hcopy, mapGet_mapSet_self]
    · intro k hk1 hk2
      rw [hrc, hcopy, mapGet_mapSet_other _ _ _ _ hk2, mapGet_mapSet_other _ _ _ _ hk1]

/-- Claim C10 witness: the frame property at a concrete one-map heap. -/
theorem signing_copies_do_not_mutate_witness :
    (signUserSignedActionAlloc singletonHeap 0 true).1.get 0
      = [("amount", .str "1"), ("time", .nat 7)]
    ∧ mapGet ((signUserSignedActionAlloc singletonHeap 0 true).1.get
        (signUserSignedActionAlloc singletonHeap 0 true).2) "amount" = some (.str "1")
    ∧ (addMultiSigFieldsAlloc singletonHeap 0 "0xAB" "0xCD").1.get 0
      = [("amount", .str "1"), ("time", .nat 7)]
    ∧ mapGet ((addMultiSigFieldsAlloc singletonHeap 0 "0xAB" "0xCD").1.get
        (addMultiSigFieldsAlloc singletonHeap 0 "0xAB" "0xCD").2) "time"
      = some (.nat 7) :=
  ⟨(signing_copies_do_not_mutate singletonHeap 0 true "0xAB" "0xCD" (by decide)).1.1,
    ((signing_copies_do_not_mutate singletonHeap 0 true "0xAB" "0xCD"
      (by decide)).1.2.2.2.2 "amount" (by decide) (by decide)),
    (signing_copies_do_not_mutate singletonHeap 0 true "0xAB" "0xCD" (by decide)).2.1,
    ((signing_copies_do_not_mutate singletonHeap 0 true "0xAB" "0xCD"
      (by decide)).2.2.2.2.2 "time" (by decide) (by decide))⟩

/-- Known-answer test: Keccak-256 of the empty input (the digest Ethereum
uses for empty data), validating the permutation, the generated round
constants and rotation offsets, and the 0x01 padding domain. -/
theorem keccak256_empty_vector :
    keccak256 [] =
      [0xc5, 0xd2, 0x46, 0x01, 0x86, 0xf7, 0x23, 0x3c,
       0x92, 0x7e, 0x7d, 0xb2, 0xdc, 0xc7, 0x03, 0xc0,
       0xe5, 0x00, 0xb6, 0x53, 0xca, 0x82, 0x27, 0x3b,
       0x7b, 0xfa, 0xd8, 0x04, 0x5d, 0x85, 0xa4, 0x70] := by decide

/-- Known-answer test: Keccak-256 of the three bytes `"abc"`. -/
theorem keccak256_abc_vector :
    keccak256 (strBytes "abc") =
      [0x4e, 0x03, 0x65, 0x7a, 0xea, 0x45, 0xa9, 0x4f,
       0xc7, 0xd4, 0x7b, 0xa8, 0x26, 0xc8, 0xd6, 0x67,
       0xc0, 0xd1, 0xe6, 0xe3, 0x3a, 0x64, 0xa0, 0x36,
       0xec, 0x44, 0xf5, 0x8f, 0xa1, 0x2d, 0x6c, 0x45] := by decide
